import Mathlib

/-!
Verification development for the tequila noise tutorial
(`tutorials/Noise_tutorial.ipynb`).

The repository ships the tutorial notebook; the `tequila.circuit.noise` module
it exercises (the `NoiseModel` and `QuantumNoise` classes, the six channel
constructor functions, and the `tq.simulate` / `tq.minimize` entry points) is
part of the tequila package but is not among the supplied sources.  Those parts
are therefore modelled from the specification and from the notebook's own
description of them: its markdown cells state the Kraus-map semantics of the
channels and the combination rule of noise models.  Every such definition
carries a doc comment saying so.
-/

/-- Modelled from the spec: the six supported noise channel kinds (bit flip,
phase flip, amplitude damp, phase damp, combined phase-amplitude damp,
symmetric depolarizing); custom channel kinds are not possible. -/
inductive NoiseName where
  | bitFlip
  | phaseFlip
  | amplitudeDamp
  | phaseDamp
  | phaseAmplitudeDamp
  | depolarizing
  deriving DecidableEq

/-- Modelled from the spec: a noise operation designates what operation it
performs (its channel kind), with what probability or probabilities, and on
how many qubits (its level). -/
structure QuantumNoise where
  name : NoiseName
  probs : List ℚ
  level : ℕ
  deriving DecidableEq

/-- Modelled from the spec: a noise model is an ordered collection of noise
operations. -/
structure NoiseModel where
  noises : List QuantumNoise
  deriving DecidableEq

/-- Modelled from the spec: noise models combine through addition, creating a
new noise model with all the operations of the two summands, those of the
first summand first and in their original order. -/
def NoiseModel.add (a b : NoiseModel) : NoiseModel :=
  ⟨a.noises ++ b.noises⟩

instance : Add NoiseModel :=
  ⟨NoiseModel.add⟩

/-- Modelled from the spec: `BitFlip` builds the one-operation noise model that
probabilistically applies pauli X to gates of the given level. -/
def BitFlip (p : ℚ) (level : ℕ) : NoiseModel :=
  ⟨[⟨NoiseName.bitFlip, [p], level⟩]⟩

/-- Modelled from the spec: `PhaseFlip` builds the one-operation noise model
that probabilistically applies pauli Z to gates of the given level. -/
def PhaseFlip (p : ℚ) (level : ℕ) : NoiseModel :=
  ⟨[⟨NoiseName.phaseFlip, [p], level⟩]⟩

/-- Modelled from the spec: `AmplitudeDamp` builds the one-operation noise
model that takes qubits in state one to state zero on gates of the given
level. -/
def AmplitudeDamp (p : ℚ) (level : ℕ) : NoiseModel :=
  ⟨[⟨NoiseName.amplitudeDamp, [p], level⟩]⟩

/-- Modelled from the spec: `PhaseDamp` builds the one-operation noise model
applying the phase-damping channel to gates of the given level. -/
def PhaseDamp (p : ℚ) (level : ℕ) : NoiseModel :=
  ⟨[⟨NoiseName.phaseDamp, [p], level⟩]⟩

/-- Modelled from the spec: `PhaseAmplitudeDamp` builds the one-operation noise
model performing phase and amplitude damping simultaneously on gates of the
given level. -/
def PhaseAmplitudeDamp (p : ℚ) (level : ℕ) : NoiseModel :=
  ⟨[⟨NoiseName.phaseAmplitudeDamp, [p], level⟩]⟩

/-- Modelled from the spec: `DepolarizingError` builds the one-operation noise
model that equiprobabilistically performs pauli X, Y and Z on gates of the
given level. -/
def DepolarizingError (p : ℚ) (level : ℕ) : NoiseModel :=
  ⟨[⟨NoiseName.depolarizing, [p], level⟩]⟩

/-- The quantum gates the notebook builds its circuits from: `tq.gates.X`,
`tq.gates.H`, `tq.gates.Rz` and `tq.gates.CNOT`. -/
inductive Gate where
  | x (target : ℕ)
  | h (target : ℕ)
  | rz (angle : ℚ) (target : ℕ)
  | cnot (control target : ℕ)
  deriving DecidableEq

/-- The number of qubits a gate acts on. -/
def Gate.arity : Gate → ℕ
  | .x _ => 1
  | .h _ => 1
  | .rz _ _ => 1
  | .cnot _ _ => 2

/-- Modelled from the spec: a noise operation applies to a gate exactly when
the number of qubits involved in the gate equals the operation's level; the
operation the gate performs plays no role. -/
def QuantumNoise.appliesTo (qn : QuantumNoise) (g : Gate) : Bool :=
  g.arity == qn.level

/-- A noise model is well formed when each of its operations carries at least
one probability. -/
def NoiseModel.wellFormed (nm : NoiseModel) : Bool :=
  nm.noises.all fun qn => !qn.probs.isEmpty

/-- Modelled from the spec, following the notebook's Kraus-map descriptions:
the action of one noise operation on a diagonal one-qubit density matrix,
represented by the population `q` of the state one.  A bit flip exchanges the
populations with probability `p`; an amplitude damp takes population of state
one to state zero with probability `p`; phase flips and phase damps leave a
diagonal state unchanged; the combined phase-amplitude damp acts on the
diagonal like its amplitude-damp part; symmetric depolarizing applies each of
pauli X, Y, Z with probability `p / 3`, of which X and Y exchange the
populations. -/
def QuantumNoise.applyDiag (qn : QuantumNoise) (q : ℚ) : ℚ :=
  let p := qn.probs.headD 0
  match qn.name with
  | NoiseName.bitFlip => (1 - p) * q + p * (1 - q)
  | NoiseName.phaseFlip => q
  | NoiseName.amplitudeDamp => (1 - p) * q
  | NoiseName.phaseDamp => q
  | NoiseName.phaseAmplitudeDamp => (1 - p) * q
  | NoiseName.depolarizing => (1 - 2 * p / 3) * q + 2 * p / 3 * (1 - q)

/-- The level-one channels of a noise model applied to a diagonal one-qubit
state, in the order they occur in the model. -/
def NoiseModel.applyDiag1 (nm : NoiseModel) (q : ℚ) : ℚ :=
  nm.noises.foldl (fun s qn => if qn.level = 1 then qn.applyDiag s else s) q

/-- The notebook's order-dependence demonstration: the expectation of pauli Z
after the one-qubit circuit `X(0)` under a noise model.  The X gate takes the
zero state to population one, every applicable channel follows in model order,
and Z has expectation one minus twice the final population. -/
def expectZafterX (nm : NoiseModel) : ℚ :=
  1 - 2 * nm.applyDiag1 1

theorem NoiseModel.add_noises (a b : NoiseModel) :
    (a + b).noises = a.noises ++ b.noises :=
  rfl

/-- C1: the addition of two noise models returns a new model whose operation
list is the first summand's operation list followed by the second's, each in
its original order; this list order is the order in which the channels act
during sequential simulation, and there are models A and B for which A + B and
B + A simulate to different results (the notebook's amplitude-damp/bit-flip
demonstration). -/
theorem noiseModel_add_concat_order_matters (a b : NoiseModel) :
    (a + b).noises = a.noises ++ b.noises ∧
    ∃ A B : NoiseModel, expectZafterX (A + B) ≠ expectZafterX (B + A) := by
  refine ⟨rfl, AmplitudeDamp (3/10) 1, BitFlip (2/5) 1, ?_⟩
  norm_num [expectZafterX, NoiseModel.applyDiag1, QuantumNoise.applyDiag,
    AmplitudeDamp, BitFlip, NoiseModel.add_noises]

/-- C3: every noise operation's channel kind is one of the six named channels,
and its applicability to a gate is decided by the gate's qubit count alone: a
level-k operation applies to a gate exactly when the gate acts on k qubits,
and two gates of equal arity are treated alike whatever operation they
perform. -/
theorem noise_op_six_kinds_arity_applicability (qn : QuantumNoise) (g g' : Gate)
    (harity : g.arity = g'.arity) :
    (qn.name = NoiseName.bitFlip ∨ qn.name = NoiseName.phaseFlip ∨
      qn.name = NoiseName.amplitudeDamp ∨ qn.name = NoiseName.phaseDamp ∨
      qn.name = NoiseName.phaseAmplitudeDamp ∨ qn.name = NoiseName.depolarizing) ∧
    (qn.appliesTo g = true ↔ g.arity = qn.level) ∧
    qn.appliesTo g = qn.appliesTo g' := by
  refine ⟨?_, ?_, ?_⟩
  · cases h : qn.name <;> simp
  · simp [QuantumNoise.appliesTo]
  · simp [QuantumNoise.appliesTo, harity]

/-- Witness for C3 at a concrete noise operation and two concrete gates of
equal arity that perform different operations. -/
theorem noise_op_six_kinds_arity_applicability_witness :
    (Gate.x 0).arity = (Gate.h 0).arity ∧
    (((⟨NoiseName.bitFlip, [1/10], 1⟩ : QuantumNoise).name = NoiseName.bitFlip ∨
      (⟨NoiseName.bitFlip, [1/10], 1⟩ : QuantumNoise).name = NoiseName.phaseFlip ∨
      (⟨NoiseName.bitFlip, [1/10], 1⟩ : QuantumNoise).name = NoiseName.amplitudeDamp ∨
      (⟨NoiseName.bitFlip, [1/10], 1⟩ : QuantumNoise).name = NoiseName.phaseDamp ∨
      (⟨NoiseName.bitFlip, [1/10], 1⟩ : QuantumNoise).name = NoiseName.phaseAmplitudeDamp ∨
      (⟨NoiseName.bitFlip, [1/10], 1⟩ : QuantumNoise).name = NoiseName.depolarizing) ∧
    ((⟨NoiseName.bitFlip, [1/10], 1⟩ : QuantumNoise).appliesTo (Gate.x 0) = true ↔
      (Gate.x 0).arity = (⟨NoiseName.bitFlip, [1/10], 1⟩ : QuantumNoise).level) ∧
    (⟨NoiseName.bitFlip, [1/10], 1⟩ : QuantumNoise).appliesTo (Gate.x 0) =
      (⟨NoiseName.bitFlip, [1/10], 1⟩ : QuantumNoise).appliesTo (Gate.h 0)) :=
  ⟨rfl, noise_op_six_kinds_arity_applicability ⟨NoiseName.bitFlip, [1/10], 1⟩
    (Gate.x 0) (Gate.h 0) rfl⟩

/-- A computational-basis state of the notebook's two qubits, as the pair of
the bit of qubit 0 and the bit of qubit 1. -/
abbrev QState := Bool × Bool

/-- Flip one qubit of a basis state. -/
def flipQ (t : Fin 2) (s : QState) : QState :=
  if t = 0 then (!s.1, s.2) else (s.1, !s.2)

/-- Read one qubit of a basis state. -/
def getQ (t : Fin 2) (s : QState) : Bool :=
  if t = 0 then s.1 else s.2

/-- The gates of the notebook's first circuit, `tq.gates.X(0)` and
`tq.gates.CNOT(0,1)`: both permute computational-basis states. -/
inductive CGate where
  | x (target : Fin 2)
  | cnot (control target : Fin 2)
  deriving DecidableEq

/-- The action of a basis-permuting gate on a basis state. -/
def CGate.apply : CGate → QState → QState
  | .x t, s => flipQ t s
  | .cnot c t, s => if getQ c s then flipQ t s else s

/-- The qubits a gate involves, so also how many. -/
def CGate.qubits : CGate → List (Fin 2)
  | .x t => [t]
  | .cnot c t => [c, t]

/-- Modelled from the spec, following the notebook's Kraus-map descriptions,
restricted to computational-basis states: one noise operation acting on one
qubit of a basis state, driven by one uniform draw from the sampler's random
stream.  A bit flip flips the qubit when the draw falls below `p`; an
amplitude damp flips a qubit in state one down to zero when the draw falls
below `p`; phase flips and phase damps do not change basis-state populations;
the combined phase-amplitude damp acts like its amplitude-damp part;
symmetric depolarizing performs one of pauli X, Y, Z with probability `p / 3`
each, of which X and Y flip the qubit. -/
def QuantumNoise.applyShot (qn : QuantumNoise) (draw : ℚ) (t : Fin 2)
    (s : QState) : QState :=
  let p := qn.probs.headD 0
  match qn.name with
  | NoiseName.bitFlip => if draw < p then flipQ t s else s
  | NoiseName.phaseFlip => s
  | NoiseName.amplitudeDamp =>
      if getQ t s = true ∧ draw < p then flipQ t s else s
  | NoiseName.phaseDamp => s
  | NoiseName.phaseAmplitudeDamp =>
      if getQ t s = true ∧ draw < p then flipQ t s else s
  | NoiseName.depolarizing => if draw < 2 * p / 3 then flipQ t s else s

/-- After a gate, every operation of the noise model whose level equals the
gate's qubit count acts in model order on each qubit the gate involves,
consuming one draw of the random stream per qubit; the state is paired with
the next unused stream position. -/
def applyModelShot (nm : NoiseModel) (g : CGate) (rand : ℕ → ℚ) :
    QState × ℕ → QState × ℕ :=
  fun si =>
    nm.noises.foldl
      (fun si qn =>
        if qn.level = g.qubits.length then
          g.qubits.foldl
            (fun si t => (qn.applyShot (rand si.2) t si.1, si.2 + 1)) si
        else si)
      si

/-- One sampled shot: run the circuit from the all-zero state, each gate
followed by its applicable noise, returning the measured basis state and the
next unused stream position. -/
def runShot (circ : List CGate) (nm : NoiseModel) (rand : ℕ → ℚ)
    (start : ℕ) : QState × ℕ :=
  circ.foldl (fun si g => applyModelShot nm g rand (g.apply si.1, si.2))
    ((false, false), start)

/-- An objective as the notebook builds one: a circuit together with a
hamiltonian that is diagonal in the computational basis, read off the
measured state. -/
structure Objective where
  circuit : List CGate
  ham : QState → ℚ

/-- Exact, noiseless, sample-free simulation of an objective. -/
def exactSimulate (O : Objective) : ℚ :=
  O.ham (O.circuit.foldl (fun s g => g.apply s) (false, false))

/-- The sum of the hamiltonian values of the given number of consecutive
shots, threading the random-stream position through, with the final position
returned. -/
def sumShots (O : Objective) : ℕ → NoiseModel → (ℕ → ℚ) → ℕ → ℚ × ℕ
  | 0, _, _, idx => (0, idx)
  | Nat.succ n, nm, rand, idx =>
    let r := runShot O.circuit nm rand idx
    let rest := sumShots O n nm rand r.2
    (O.ham r.1 + rest.1, rest.2)

/-- Sampled simulation: the average of the given number of consecutive shots
under a noise model. -/
def sampledSimulate (O : Objective) (samples : ℕ) (nm : NoiseModel)
    (rand : ℕ → ℚ) : ℚ :=
  (sumShots O samples nm rand 0).1 / samples

/-- Modelled from the spec: the noise argument of the entry points is either
absent, a noise model, or the sentinel keyword-value selecting the emulated
device's own noise. -/
inductive NoiseArg where
  | none
  | model (nm : NoiseModel)
  | device
  deriving DecidableEq

/-- The noise model a noise argument selects; the empty model when absent, and
the known noise model `dev` of the emulated device in use for the sentinel. -/
def NoiseArg.toModel : NoiseArg → NoiseModel → NoiseModel
  | .none, _ => ⟨[]⟩
  | .model nm, _ => nm
  | .device, dev => dev

/-- Modelled from the spec: the `tq.simulate` entry point: an objective, an
optional sample count (the default none), and a noise argument.  `dev` models
the known noise model of the emulated device in use, if any, and `rand` the
ambient random stream of the sampler.  Without samples the objective is
evaluated exactly and noise cannot function; with samples the selected noise
model governs the sampling. -/
def tqSimulate (O : Objective) (samples : Option ℕ) (noise : NoiseArg)
    (dev : NoiseModel) (rand : ℕ → ℚ) : ℚ :=
  match samples with
  | Option.none => exactSimulate O
  | Option.some s => sampledSimulate O s (noise.toModel dev) rand

/-- Modelled from the spec: the `tq.compile` entry point: fixing an objective
and a noise argument yields a compiled simulateable that still accepts the
optional sample count. -/
def tqCompile (O : Objective) (noise : NoiseArg) (dev : NoiseModel) :
    Option ℕ → (ℕ → ℚ) → ℚ :=
  fun samples rand => tqSimulate O samples noise dev rand

/-- Modelled from the spec: the `tq.minimize` entry point: a parametrized
objective minimized over a list of candidate parameter values, accepting the
same optional sample count and noise argument as `tq.simulate`. -/
def tqMinimize (f : ℚ → Objective) (cands : List ℚ) (samples : Option ℕ)
    (noise : NoiseArg) (dev : NoiseModel) (rand : ℕ → ℚ) : Option ℚ :=
  (cands.map fun c => tqSimulate (f c) samples noise dev rand).min?

/-- The notebook's hamiltonian `tq.paulis.Qm(1)`: zero on a basis state whose
qubit 1 is zero and one when qubit 1 is one. -/
def QmOne : QState → ℚ :=
  fun s => if s.2 then 1 else 0

/-- The notebook's first objective `O1`: the circuit `X(0) + CNOT(0,1)`
measured with `Qm(1)`. -/
def O1 : Objective :=
  ⟨[CGate.x 0, CGate.cnot 0 1], QmOne⟩

/-- The notebook's combined noise model `my_nm`: one-qubit bit flips with
probability 0.1 plus two-qubit bit flips with probability 0.3. -/
def myNM : NoiseModel :=
  BitFlip (1/10) 1 + BitFlip (3/10) 2

/-- C2: the simulation and optimization entry points each accept an objective,
an optional sample count, and an optional noise argument, and the noise
argument may be the device sentinel, which selects the emulated device's own
noise model; absent samples the evaluation is exact. -/
theorem tq_entry_points_signature (O : Objective) (s : ℕ) (nm dev : NoiseModel)
    (rand : ℕ → ℚ) (f : ℚ → Objective) (cands : List ℚ) :
    tqSimulate O (Option.some s) (NoiseArg.model nm) dev rand =
      sampledSimulate O s nm rand ∧
    tqSimulate O (Option.some s) NoiseArg.device dev rand =
      sampledSimulate O s dev rand ∧
    tqSimulate O (Option.some s) NoiseArg.none dev rand =
      sampledSimulate O s ⟨[]⟩ rand ∧
    tqSimulate O Option.none (NoiseArg.model nm) dev rand = exactSimulate O ∧
    tqMinimize f cands (Option.some s) NoiseArg.device dev rand =
      (cands.map fun c => sampledSimulate (f c) s dev rand).min? ∧
    tqMinimize f cands (Option.some s) (NoiseArg.model nm) dev rand =
      (cands.map fun c => sampledSimulate (f c) s nm rand).min? :=
  ⟨rfl, rfl, rfl, rfl, rfl, rfl⟩

/-- C4: each of the six single-channel constructor functions takes a
probability and a gate-arity level and returns a noise model holding exactly
that one channel, and such a singleton model is directly usable as the noise
argument of simulation. -/
theorem constructors_one_channel_directly_usable (p : ℚ) (l : ℕ) (O : Objective)
    (s : ℕ) (dev : NoiseModel) (rand : ℕ → ℚ) :
    (BitFlip p l).noises = [⟨NoiseName.bitFlip, [p], l⟩] ∧
    (PhaseFlip p l).noises = [⟨NoiseName.phaseFlip, [p], l⟩] ∧
    (AmplitudeDamp p l).noises = [⟨NoiseName.amplitudeDamp, [p], l⟩] ∧
    (PhaseDamp p l).noises = [⟨NoiseName.phaseDamp, [p], l⟩] ∧
    (PhaseAmplitudeDamp p l).noises = [⟨NoiseName.phaseAmplitudeDamp, [p], l⟩] ∧
    (DepolarizingError p l).noises = [⟨NoiseName.depolarizing, [p], l⟩] ∧
    tqSimulate O (Option.some s) (NoiseArg.model (BitFlip p l)) dev rand =
      sampledSimulate O s (BitFlip p l) rand :=
  ⟨rfl, rfl, rfl, rfl, rfl, rfl, rfl⟩

/-- C5: every noise model built by a constructor is an ordered collection of
operations each carrying a kind, at least one probability and a level, and
addition preserves that shape while keeping the operations of both summands in
order. -/
theorem noise_model_shape_preserved (p : ℚ) (l : ℕ) (a b : NoiseModel)
    (ha : a.wellFormed = true) (hb : b.wellFormed = true) :
    (BitFlip p l).wellFormed = true ∧
    (PhaseFlip p l).wellFormed = true ∧
    (AmplitudeDamp p l).wellFormed = true ∧
    (PhaseDamp p l).wellFormed = true ∧
    (PhaseAmplitudeDamp p l).wellFormed = true ∧
    (DepolarizingError p l).wellFormed = true ∧
    (a + b).wellFormed = true ∧
    (a + b).noises = a.noises ++ b.noises := by
  refine ⟨rfl, rfl, rfl, rfl, rfl, rfl, ?_, rfl⟩
  simp only [NoiseModel.wellFormed, NoiseModel.add_noises, List.all_append,
    Bool.and_eq_true]
  exact ⟨ha, hb⟩

/-- Witness for C5 at concrete well-formed models. -/
theorem noise_model_shape_preserved_witness :
    (BitFlip (1/10) 1).wellFormed = true ∧
    (PhaseFlip (1/5) 2).wellFormed = true ∧
    ((BitFlip (1/2) 1).wellFormed = true ∧
      (PhaseFlip (1/2) 1).wellFormed = true ∧
      (AmplitudeDamp (1/2) 1).wellFormed = true ∧
      (PhaseDamp (1/2) 1).wellFormed = true ∧
      (PhaseAmplitudeDamp (1/2) 1).wellFormed = true ∧
      (DepolarizingError (1/2) 1).wellFormed = true ∧
      (BitFlip (1/10) 1 + PhaseFlip (1/5) 2).wellFormed = true ∧
      (BitFlip (1/10) 1 + PhaseFlip (1/5) 2).noises =
        (BitFlip (1/10) 1).noises ++ (PhaseFlip (1/5) 2).noises) :=
  ⟨rfl, rfl, noise_model_shape_preserved (1/2) 1 (BitFlip (1/10) 1)
    (PhaseFlip (1/5) 2) rfl rfl⟩

/-- C8: with the samples argument left at its default of none, the supplied
noise argument has no effect on `tq.simulate`, `tq.compile` or `tq.minimize`:
exact noiseless simulation is performed, whatever the noise argument, the
device in use or the ambient randomness. -/
theorem sampleless_noise_inert (O : Objective) (noise noise' : NoiseArg)
    (dev dev' : NoiseModel) (rand rand' : ℕ → ℚ) (f : ℚ → Objective)
    (cands : List ℚ) :
    tqSimulate O Option.none noise dev rand = exactSimulate O ∧
    tqSimulate O Option.none noise dev rand =
      tqSimulate O Option.none noise' dev' rand' ∧
    tqCompile O noise dev Option.none rand = exactSimulate O ∧
    tqMinimize f cands Option.none noise dev rand =
      tqMinimize f cands Option.none noise' dev' rand' := by
  refine ⟨rfl, rfl, rfl, ?_⟩
  simp [tqMinimize, tqSimulate]

/-- C10: noiseless sample-free simulation is deterministic: its value does not
depend on the noise argument, the device or the ambient randomness, and on the
notebook's objective `O1` (circuit `X(0) + CNOT(0,1)`, hamiltonian `Qm(1)`) it
is exactly one; sampled noisy simulation, by contrast, can return different
values on different draws of the ambient randomness. -/
theorem noiseless_simulation_deterministic_one :
    (∀ (noise noise' : NoiseArg) (dev dev' : NoiseModel) (rand rand' : ℕ → ℚ),
      tqSimulate O1 Option.none noise dev rand =
        tqSimulate O1 Option.none noise' dev' rand') ∧
    tqSimulate O1 Option.none NoiseArg.none ⟨[]⟩ (fun _ => 1) = 1 ∧
    (∃ r1 r2 : ℕ → ℚ,
      tqSimulate O1 (Option.some 5) (NoiseArg.model myNM) ⟨[]⟩ r1 ≠
        tqSimulate O1 (Option.some 5) (NoiseArg.model myNM) ⟨[]⟩ r2) := by
  refine ⟨fun _ _ _ _ _ _ => rfl, ?_, fun _ => 1, fun n => if n = 0 then 0 else 1, ?_⟩
  · norm_num [tqSimulate, exactSimulate, O1, QmOne, CGate.apply, flipQ, getQ]
  · norm_num [tqSimulate, sampledSimulate, sumShots, runShot, applyModelShot,
      QuantumNoise.applyShot, NoiseArg.toModel, myNM, BitFlip,
      NoiseModel.add_noises, O1, QmOne, CGate.apply, CGate.qubits, flipQ, getQ]

/-- A two-by-two complex matrix written out by entries, row zero being
`(a b)` and row one `(c d)`; used for one-qubit density matrices and gates in
the notebook's optimization demonstration. -/
@[ext]
structure M2 where
  a : ℂ
  b : ℂ
  c : ℂ
  d : ℂ

/-- Matrix product. -/
def M2.mul (x y : M2) : M2 :=
  ⟨x.a * y.a + x.b * y.c, x.a * y.b + x.b * y.d,
   x.c * y.a + x.d * y.c, x.c * y.b + x.d * y.d⟩

/-- Conjugate transpose. -/
def M2.adj (x : M2) : M2 :=
  ⟨starRingEnd ℂ x.a, starRingEnd ℂ x.c, starRingEnd ℂ x.b, starRingEnd ℂ x.d⟩

/-- Entrywise sum. -/
def M2.addM (x y : M2) : M2 :=
  ⟨x.a + y.a, x.b + y.b, x.c + y.c, x.d + y.d⟩

/-- Scalar multiple. -/
def M2.smulM (z : ℂ) (x : M2) : M2 :=
  ⟨z * x.a, z * x.b, z * x.c, z * x.d⟩

/-- Trace. -/
def M2.trace (x : M2) : ℂ := x.a + x.d

/-- Unitary conjugation, the action of a gate on a density matrix. -/
def M2.conjBy (U ρ : M2) : M2 := (U.mul ρ).mul U.adj

/-- The density matrix of the initial all-zero one-qubit state. -/
def rho0 : M2 := ⟨1, 0, 0, 0⟩

/-- The Hadamard gate `tq.gates.H`. -/
noncomputable def Hgate : M2 :=
  ⟨(((Real.sqrt 2)⁻¹ : ℝ) : ℂ), (((Real.sqrt 2)⁻¹ : ℝ) : ℂ),
   (((Real.sqrt 2)⁻¹ : ℝ) : ℂ), -(((Real.sqrt 2)⁻¹ : ℝ) : ℂ)⟩

/-- Pauli Z. -/
def Zgate : M2 := ⟨1, 0, 0, -1⟩

/-- Pauli Y, the notebook's measurement operator `tq.paulis.Y(0)`. -/
def Ygate : M2 := ⟨0, -Complex.I, Complex.I, 0⟩

/-- The rotation `tq.gates.Rz`, the diagonal of the two half-angle phases. -/
noncomputable def RzGate (θ : ℝ) : M2 :=
  ⟨Complex.exp (((-(θ / 2) : ℝ) : ℂ) * Complex.I), 0, 0,
   Complex.exp (((θ / 2 : ℝ) : ℂ) * Complex.I)⟩

/-- Modelled from the spec, following the notebook's Kraus-map description of
the phase flip as a probabilistic application of pauli Z: the channel takes a
density matrix to the mix of itself with weight one minus p and its
conjugation by Z with weight p. -/
def phaseFlipChannel (p : ℝ) (ρ : M2) : M2 :=
  M2.addM (M2.smulM ((1 - p : ℝ) : ℂ) ρ)
    (M2.smulM ((p : ℝ) : ℂ) ((Zgate.mul ρ).mul Zgate))

/-- The final density matrix of the notebook's optimization demonstration: the
circuit H, Rz, H applied to the zero state, each of the three one-qubit gates
followed by the one-qubit phase-flip channel of probability p. -/
noncomputable def rhoFinal (p θ : ℝ) : M2 :=
  phaseFlipChannel p (M2.conjBy Hgate
    (phaseFlipChannel p (M2.conjBy (RzGate θ)
      (phaseFlipChannel p (M2.conjBy Hgate rho0)))))

/-- The expectation of pauli Y in the final state: the infinite-sample value
of the notebook's noisy objective. -/
noncomputable def expectYnoisy (p θ : ℝ) : ℝ :=
  ((Ygate.mul (rhoFinal p θ)).trace).re

theorem phaseFlip_entries (p : ℝ) (ρ : M2) :
    phaseFlipChannel p ρ =
      ⟨ρ.a, ((1 - 2*p : ℝ) : ℂ) * ρ.b, ((1 - 2*p : ℝ) : ℂ) * ρ.c, ρ.d⟩ := by
  ext <;> simp [phaseFlipChannel, M2.addM, M2.smulM, M2.mul, Zgate] <;>
    push_cast <;> ring

theorem sym_conj_aux (s : ℂ) (hs : s * s = 1/2) (hc : starRingEnd ℂ s = s)
    (ρ : M2) :
    M2.conjBy ⟨s, s, s, -s⟩ ρ =
      ⟨(ρ.a + ρ.b + ρ.c + ρ.d) / 2, (ρ.a - ρ.b + ρ.c - ρ.d) / 2,
       (ρ.a + ρ.b - ρ.c - ρ.d) / 2, (ρ.a - ρ.b - ρ.c + ρ.d) / 2⟩ := by
  refine M2.ext ?_ ?_ ?_ ?_ <;>
    simp only [M2.conjBy, M2.mul, M2.adj, map_neg, hc]
  · linear_combination (ρ.a + ρ.b + ρ.c + ρ.d) * hs
  · linear_combination (ρ.a - ρ.b + ρ.c - ρ.d) * hs
  · linear_combination (ρ.a + ρ.b - ρ.c - ρ.d) * hs
  · linear_combination (ρ.a - ρ.b - ρ.c + ρ.d) * hs

theorem H_conj (ρ : M2) :
    M2.conjBy Hgate ρ =
      ⟨(ρ.a + ρ.b + ρ.c + ρ.d) / 2, (ρ.a - ρ.b + ρ.c - ρ.d) / 2,
       (ρ.a + ρ.b - ρ.c - ρ.d) / 2, (ρ.a - ρ.b - ρ.c + ρ.d) / 2⟩ := by
  refine sym_conj_aux _ ?_ (Complex.conj_ofReal _) ρ
  rw [← Complex.ofReal_mul]
  rw [show ((Real.sqrt 2)⁻¹ * (Real.sqrt 2)⁻¹ : ℝ) =
    ((Real.sqrt 2) * (Real.sqrt 2))⁻¹ by ring]
  rw [Real.mul_self_sqrt (by norm_num : (0:ℝ) ≤ 2)]
  norm_num

theorem diag_conj_aux (e : ℂ) (he : e * starRingEnd ℂ e = 1) (ρ : M2) :
    M2.conjBy ⟨e, 0, 0, starRingEnd ℂ e⟩ ρ =
      ⟨ρ.a, ρ.b * e ^ 2, ρ.c * (starRingEnd ℂ e) ^ 2, ρ.d⟩ := by
  refine M2.ext ?_ ?_ ?_ ?_ <;>
    simp only [M2.conjBy, M2.mul, M2.adj, Complex.conj_conj, map_zero]
  · linear_combination ρ.a * he
  · ring
  · ring
  · linear_combination ρ.d * he

theorem Rz_conj (θ : ℝ) (ρ : M2) :
    M2.conjBy (RzGate θ) ρ =
      ⟨ρ.a, ρ.b * Complex.exp (((-θ : ℝ) : ℂ) * Complex.I),
       ρ.c * Complex.exp (((θ : ℝ) : ℂ) * Complex.I), ρ.d⟩ := by
  have hc : starRingEnd ℂ (Complex.exp (((-(θ / 2) : ℝ) : ℂ) * Complex.I)) =
      Complex.exp (((θ / 2 : ℝ) : ℂ) * Complex.I) := by
    rw [← Complex.exp_conj]
    congr 1
    rw [map_mul, Complex.conj_ofReal, Complex.conj_I]
    push_cast
    ring
  have hU : RzGate θ = ⟨Complex.exp (((-(θ / 2) : ℝ) : ℂ) * Complex.I), 0, 0,
      starRingEnd ℂ (Complex.exp (((-(θ / 2) : ℝ) : ℂ) * Complex.I))⟩ := by
    rw [hc]
    rfl
  have he : Complex.exp (((-(θ / 2) : ℝ) : ℂ) * Complex.I) *
      starRingEnd ℂ (Complex.exp (((-(θ / 2) : ℝ) : ℂ) * Complex.I)) = 1 := by
    rw [hc, ← Complex.exp_add, ← Complex.exp_zero]
    congr 1
    push_cast
    ring
  have hsq : Complex.exp (((-(θ / 2) : ℝ) : ℂ) * Complex.I) ^ 2 =
      Complex.exp (((-θ : ℝ) : ℂ) * Complex.I) := by
    rw [sq, ← Complex.exp_add]
    congr 1
    push_cast
    ring
  have hsq2 : starRingEnd ℂ (Complex.exp (((-(θ / 2) : ℝ) : ℂ) * Complex.I)) ^ 2 =
      Complex.exp (((θ : ℝ) : ℂ) * Complex.I) := by
    rw [hc, sq, ← Complex.exp_add]
    congr 1
    push_cast
    ring
  rw [hU, diag_conj_aux _ he, hsq, hsq2]

theorem traceY (ρ : M2) : (Ygate.mul ρ).trace = Complex.I * (ρ.b - ρ.c) := by
  simp only [Ygate, M2.mul, M2.trace]
  ring

theorem expectY_formula (p θ : ℝ) :
    expectYnoisy p θ = (-1 + 2*p)^3 * Real.sin θ := by
  have hep : Complex.exp (((θ : ℝ) : ℂ) * Complex.I) =
      ((Real.cos θ : ℝ) : ℂ) + ((Real.sin θ : ℝ) : ℂ) * Complex.I := by
    rw [Complex.exp_mul_I, ← Complex.ofReal_cos, ← Complex.ofReal_sin]
  have hem : Complex.exp (((-θ : ℝ) : ℂ) * Complex.I) =
      ((Real.cos θ : ℝ) : ℂ) - ((Real.sin θ : ℝ) : ℂ) * Complex.I := by
    rw [Complex.exp_mul_I, ← Complex.ofReal_cos, ← Complex.ofReal_sin,
      Real.cos_neg, Real.sin_neg]
    push_cast
    ring
  have key : (Ygate.mul (rhoFinal p θ)).trace =
      (((-1 + 2*p)^3 * Real.sin θ : ℝ) : ℂ) := by
    simp only [rhoFinal, rho0, H_conj, phaseFlip_entries, Rz_conj, traceY,
      hep, hem]
    push_cast
    linear_combination ((1 - 2*(p:ℂ))^3 * Complex.sin ((θ:ℝ):ℂ)) * Complex.I_sq
  rw [expectYnoisy, key, Complex.ofReal_re]

/-- C9: under a one-qubit phase-flip model of probability p, the notebook's
circuit H, Rz θ, H measured against pauli Y has infinite-sample expectation
`(-1 + 2 p)^3 sin θ`; in the notebook's regime of small p the attainable
minimum over θ is therefore `(-1 + 2 p)^3`, attained at θ = π/2, and it lies
strictly above -1. -/
theorem noisy_rz_formula_min (p : ℝ) (hp0 : 0 < p) (hp1 : p ≤ 1/2) :
    (∀ θ : ℝ, expectYnoisy p θ = (-1 + 2*p)^3 * Real.sin θ) ∧
    (∀ θ : ℝ, (-1 + 2*p)^3 ≤ expectYnoisy p θ) ∧
    expectYnoisy p (Real.pi/2) = (-1 + 2*p)^3 ∧
    -1 < (-1 + 2*p)^3 := by
  have hc : (-1 + 2*p)^3 ≤ 0 :=
    (Odd.pow_nonpos_iff (⟨1, by norm_num⟩ : Odd 3)).mpr (by linarith)
  refine ⟨expectY_formula p, ?_, ?_, ?_⟩
  · intro θ
    rw [expectY_formula]
    nlinarith [Real.sin_le_one θ, hc]
  · rw [expectY_formula, Real.sin_pi_div_two, mul_one]
  · have h1 : (0:ℝ) < (-1 + 2*p) + 1 := by linarith
    have h2 : (0:ℝ) < (-1 + 2*p)^2 - (-1 + 2*p) + 1 := by
      nlinarith [sq_nonneg (2*(-1 + 2*p) - 1)]
    nlinarith [mul_pos h1 h2]

/-- Witness for C9 at the concrete probability one tenth, inside the
notebook's sampling interval for p. -/
theorem noisy_rz_formula_min_witness :
    (0:ℝ) < 1/10 ∧ (1/10 : ℝ) ≤ 1/2 ∧
    ((∀ θ : ℝ, expectYnoisy (1/10) θ = (-1 + 2*(1/10))^3 * Real.sin θ) ∧
      (∀ θ : ℝ, (-1 + 2*(1/10))^3 ≤ expectYnoisy (1/10) θ) ∧
      expectYnoisy (1/10) (Real.pi/2) = (-1 + 2*(1/10))^3 ∧
      (-1 : ℝ) < (-1 + 2*(1/10))^3) :=
  ⟨by norm_num, by norm_num,
    noisy_rz_formula_min (1/10) (by norm_num) (by norm_num)⟩
